import Mathlib

/-
A shallow embedding of the 2D recursive shadowcasting engine of the
scoundrel repository (crate scoundrel-algorithm, module shadow_cast_2d),
together with theorems settling the frozen claims about it.

The embedding follows the Rust sources:
  scoundrel-geometry/src/vector.rs, matrix.rs   (Point = Vector2<i32>, Mat2<i32>)
  scoundrel-algorithm/src/shadow_cast_2d/opacity.rs
  scoundrel-algorithm/src/shadow_cast_2d/slope.rs
  scoundrel-algorithm/src/shadow_cast_2d/octant.rs
  scoundrel-algorithm/src/shadow_cast_2d/tile_shape.rs
  scoundrel-algorithm/src/shadow_cast_2d/algorithm.rs

Machine integers (i32) are modelled by Int; the one claim where 32-bit
wrapping matters (Slope::new at i32::MIN) uses an explicit mod-2^32 model.
The recursive scanner `_cast_light` is modelled with an explicit fuel
parameter; a theorem shows the result is independent of the fuel once the
fuel reaches the recursion-depth bound `range + 1 - x`, which is the
depth-bound fact the source relies on.  The callback is modelled by
accumulating the points, in call order, into a list; the Rust `panic!` in
`octant_transform` is modelled by `Option`.
-/

namespace Scoundrel

/-- `Point = Vector2<i32>`: an integer 2-vector with fields `x`, `y`. -/
structure Point where
  x : Int
  y : Int
deriving DecidableEq, Repr

/-- Componentwise addition of points (`impl Add for Vector2`). -/
def Point.add (p q : Point) : Point :=
  ⟨p.x + q.x, p.y + q.y⟩

/-- `Mat2<i32>` in row-major form: the matrix `[[xx, xy], [yx, yy]]`.
The Rust struct stores two columns; `Mat2::row_major(xx, xy, yx, yy)`
builds columns `(xx, yx)` and `(xy, yy)`, which is this matrix. -/
structure Mat2 where
  xx : Int
  xy : Int
  yx : Int
  yy : Int
deriving DecidableEq, Repr

/-- `Mat2::row_major`. -/
def Mat2.row_major (xx xy yx yy : Int) : Mat2 :=
  ⟨xx, xy, yx, yy⟩

/-- `Mat2::ident()`. -/
def Mat2.ident : Mat2 :=
  ⟨1, 0, 0, 1⟩

/-- `impl Mul<Vector2<T>> for Mat2<T>`: matrix-vector product
`(col1.x*v.x + col2.x*v.y, col1.y*v.x + col2.y*v.y)`. -/
def Mat2.mulVec (m : Mat2) (v : Point) : Point :=
  ⟨m.xx * v.x + m.xy * v.y, m.yx * v.x + m.yy * v.y⟩

/-- The `Opacity` enum of opacity.rs. -/
inductive Opacity where
  | Opaque
  | Transparent
deriving DecidableEq, Repr

/-- The `Slope` struct of slope.rs: a rise/run pair of i32. -/
structure Slope where
  rise : Int
  run : Int
deriving DecidableEq, Repr

/-- `Slope::new`: negates both components when `run < 0`.
(Idealized integers; the 32-bit wrapping model is `Slope.new32` below.) -/
def Slope.new (rise run : Int) : Slope :=
  if run < 0 then ⟨-rise, -run⟩ else ⟨rise, run⟩

/-- `Slope::ONE = Slope::new(1, 1)`. -/
def Slope.ONE : Slope := Slope.new 1 1

/-- `Slope::ZERO = Slope::new(0, 0)`. -/
def Slope.ZERO : Slope := Slope.new 0 0

/-- `impl Ord for Slope`: cross-multiplied comparison
`(self.rise * other.run).cmp(&(other.rise * self.run))`. -/
def Slope.cmp (a b : Slope) : Ordering :=
  compare (a.rise * b.run) (b.rise * a.run)

/-- `a < b` on slopes, as the Boolean the scanner branches on
(`PartialOrd` is derived from `Ord::cmp`, so `a < b ⟺ cmp a b = lt`). -/
def Slope.blt (a b : Slope) : Bool :=
  decide (a.rise * b.run < b.rise * a.run)

/-- Reduction of i32 wrapping arithmetic into `[-2^31, 2^31)`. -/
def wrap32 (z : Int) : Int :=
  (z + 2 ^ 31) % 2 ^ 32 - 2 ^ 31

/-- `Slope::new` on true 32-bit integers: `rise *= -1; run *= -1` wrap
modulo `2^32` (two's complement) when `run < 0`. -/
def Slope.new32 (rise run : Int) : Slope :=
  if run < 0 then ⟨wrap32 (-rise), wrap32 (-run)⟩ else ⟨rise, run⟩

/-- `octant_transform` of octant.rs; `none` models the
`panic!("Invalid octant number")` arm. -/
def octant_transform : Nat → Option Mat2
  | 0 => some Mat2.ident
  | 1 => some (Mat2.row_major 0 1 1 0)
  | 2 => some (Mat2.row_major 0 (-1) 1 0)
  | 3 => some (Mat2.row_major (-1) 0 0 1)
  | 4 => some (Mat2.row_major (-1) 0 0 (-1))
  | 5 => some (Mat2.row_major 0 (-1) (-1) 0)
  | 6 => some (Mat2.row_major 0 1 (-1) 0)
  | 7 => some (Mat2.row_major 1 0 0 (-1))
  | _ => none

/-- The `TileShape` trait: the three boundary-slope queries. -/
structure TileShape where
  tile_slope_high : Int → Int → Slope
  tile_slope_low : Int → Int → Slope
  prev_tile_slope_low : Int → Int → Slope

/-- `SquareTileShape`. -/
def SquareTileShape : TileShape where
  tile_slope_high := fun x y => Slope.new (2 * y + 1) (2 * x - 1)
  tile_slope_low := fun x y => Slope.new (2 * y - 1) (2 * x + 1)
  prev_tile_slope_low := fun x y => Slope.new (2 * y + 1) (2 * x + 1)

/-- `DiamondTileShape`. -/
def DiamondTileShape : TileShape where
  tile_slope_high := fun x y => Slope.new (y * 2 + 1) (x * 2)
  tile_slope_low := fun x y => Slope.new (y * 2 - 1) (x * 2)
  prev_tile_slope_low := fun x y => Slope.new (y * 2 + 1) (x * 2)

/-- `AdamMilazzoTileShape::blocks_light`: maps octant-0 coordinates to
world coordinates and tests for `Some(Opacity::Opaque)` (so a `None`
lookup does NOT block light here). The map is modelled by its
`LabeledSpatialGraph::get` function `Point → Option Opacity`. -/
def amBlocksLight (map : Point → Option Opacity) (origin : Point)
    (transform : Mat2) (x y : Int) : Bool :=
  decide (map (origin.add (transform.mulVec ⟨y, x⟩)) = some Opacity.Opaque)

/-- `impl TileShape for AdamMilazzoTileShape`. -/
def AdamMilazzoTileShape (map : Point → Option Opacity) (origin : Point)
    (transform : Mat2) : TileShape where
  tile_slope_high := fun x y =>
    if amBlocksLight map origin transform x y then
      if !amBlocksLight map origin transform x (y + 1) then
        Slope.new (2 * y + 1) (2 * x)
      else
        Slope.new (2 * y + 1) (2 * x - 1)
    else
      Slope.new (2 * y + 1) (2 * x - 1)
  tile_slope_low := fun x y =>
    if amBlocksLight map origin transform x y then
      if !amBlocksLight map origin transform (x + 1) y then
        Slope.new (2 * y - 1) (2 * x)
      else
        Slope.new (2 * y - 1) (2 * x + 1)
    else
      Slope.new (2 * y - 1) (2 * x + 1)
  prev_tile_slope_low := fun x y =>
    if !amBlocksLight map origin transform (x + 1) y then
      Slope.new (2 * y) (2 * x)
    else
      Slope.new (2 * y) (2 * x + 1)

/-- The scanner's opacity test on a world point:
`map.get(map_pt) != Some(Opacity::Transparent)` (algorithm.rs line 51). -/
def scanOpacity (map : Point → Option Opacity) (map_pt : Point) : Bool :=
  !decide (map map_pt = some Opacity.Transparent)

/-- The scanner's starting lateral offset (algorithm.rs lines 31-35):
`((2*x - 1) * slope_low.rise - slope_low.run) / (2 * slope_low.run)` with
Rust `/` (truncation toward zero, `Int.tdiv`) when `slope_low.run > 0`,
else `0`. -/
def computeY0 (slope_low : Slope) (x : Int) : Int :=
  if 0 < slope_low.run then
    Int.tdiv ((2 * x - 1) * slope_low.rise - slope_low.run) (2 * slope_low.run)
  else
    0

/-- The body of `_cast_light`'s `for y in (y0..=x).rev()` loop
(algorithm.rs lines 37-74) plus the trailing
`if !prev_opaque { recurse }` (lines 75-87).  `n` is the number of loop
iterations left and `y` the current lateral offset, so the call that
models the whole loop takes `n = (x - y0 + 1).toNat` and `y = x`; `rec`
stands for the recursive call `_cast_light(map, origin, range, transform,
x + 1, ·, ·, tile_shape, ·)`; the callback accumulates visited points at
the end of `acc`. The first branch is the loop's `continue`, the second
its `break` (which in Rust still falls through to the trailing
recursion check with the current `prev_opaque` and `slope_high`). -/
def castLoop (map : Point → Option Opacity) (origin : Point) (range : Int)
    (transform : Mat2) (x : Int) (slope_low : Slope) (ts : TileShape)
    (rec : Slope → Slope → List Point → List Point) :
    Nat → Int → Slope → Bool → List Point → List Point
  | 0, _, slope_high, prevOpaque, acc =>
      if !prevOpaque then rec slope_high slope_low acc else acc
  | n + 1, y, slope_high, prevOpaque, acc =>
      let tsh := ts.tile_slope_high x y
      let tsl := ts.tile_slope_low x y
      if Slope.blt slope_high tsl then
        castLoop map origin range transform x slope_low ts rec n (y - 1)
          slope_high prevOpaque acc
      else if Slope.blt tsh slope_low then
        if !prevOpaque then rec slope_high slope_low acc else acc
      else
        let in_range := decide (x * x + y * y ≤ range * range)
        let map_pt := origin.add (transform.mulVec ⟨y, x⟩)
        let isOpaque := scanOpacity map map_pt
        let acc1 := if in_range then acc ++ [map_pt] else acc
        let slope_high1 :=
          if prevOpaque && !isOpaque then ts.prev_tile_slope_low x y
          else slope_high
        let acc2 := if !prevOpaque && isOpaque then rec slope_high1 tsh acc1 else acc1
        castLoop map origin range transform x slope_low ts rec n (y - 1)
          slope_high1 isOpaque acc2

/-- `_cast_light` of algorithm.rs, with an explicit fuel bounding the
recursion depth.  Each recursive call of the source uses distance `x + 1`
and the source returns at once when `x > range`, so any
`fuel ≥ (range + 1 - x).toNat` yields the source's behavior
(`castLight_fuel_irrelevant` below); the entry points use
`range.toNat`, which is that bound at their `x = 1`. -/
def castLight (map : Point → Option Opacity) (origin : Point) (range : Int)
    (transform : Mat2) (ts : TileShape) :
    Nat → Int → Slope → Slope → List Point → List Point
  | 0, _, _, _, acc => acc
  | fuel + 1, x, slope_high, slope_low, acc =>
      if Slope.blt slope_high slope_low || decide (range < x) then acc
      else
        let y0 := computeY0 slope_low x
        castLoop map origin range transform x slope_low ts
          (fun sh sl a =>
            castLight map origin range transform ts fuel (x + 1) sh sl a)
          (x - y0 + 1).toNat x slope_high false acc

/-- Shared shape of the three entry points: `callback(origin)` first, then
`for octant in 0..8 { let transform = octant_transform(octant); _cast_light(map,
origin, range, transform, 1, Slope::ONE, Slope::ZERO, tile_shape, callback) }`,
where the tile shape may depend on the octant's transform (it does only for
the beveled variant).  The `panic!` arm of `octant_transform` propagates as
`none`. -/
def castOctants (map : Point → Option Opacity) (origin : Point) (range : Int)
    (mkShape : Mat2 → TileShape) : Option (List Point) :=
  (List.range 8).foldlM
    (fun acc octant =>
      (octant_transform octant).map fun transform =>
        castLight map origin range transform (mkShape transform) range.toNat 1
          Slope.ONE Slope.ZERO acc)
    [origin]

/-- `cast_light_2d`: square tiles. -/
def cast_light_2d (map : Point → Option Opacity) (origin : Point)
    (range : Int) : Option (List Point) :=
  castOctants map origin range fun _ => SquareTileShape

/-- `cast_light_2d_diamond`: diamond tiles. -/
def cast_light_2d_diamond (map : Point → Option Opacity) (origin : Point)
    (range : Int) : Option (List Point) :=
  castOctants map origin range fun _ => DiamondTileShape

/-- `cast_light_2d_beveled`: Adam Milazzo beveled tiles, whose tile shape
captures the map, origin and the octant's transform. -/
def cast_light_2d_beveled (map : Point → Option Opacity) (origin : Point)
    (range : Int) : Option (List Point) :=
  castOctants map origin range fun transform =>
    AdamMilazzoTileShape map origin transform

/-- Squared Euclidean norm of a point, for stating range containment. -/
def sqNorm (v : Point) : Int :=
  v.x * v.x + v.y * v.y

/-- Squared Euclidean distance `(p.x-q.x)² + (p.y-q.y)²`. -/
def sqDist (p q : Point) : Int :=
  (p.x - q.x) * (p.x - q.x) + (p.y - q.y) * (p.y - q.y)

/-- The map with every `None` lookup replaced by `Some(Opaque)`; the scanner
cannot distinguish it from the original map. -/
def maskOpaque (map : Point → Option Opacity) : Point → Option Opacity :=
  fun p =>
    match map p with
    | none => some Opacity.Opaque
    | some o => some o

/-- The spec's words for the starting offset: `y0 = floor(((2x-1)*rise - run)
/ (2*run))` with a true mathematical floor (`Int.fdiv`), for comparison with
the truncating `computeY0` of the source. -/
def specComputeY0 (slope_low : Slope) (x : Int) : Int :=
  if 0 < slope_low.run then
    Int.fdiv ((2 * x - 1) * slope_low.rise - slope_low.run) (2 * slope_low.run)
  else
    0

/-- `castLight` with the starting offset computed by the spec's floor formula
(`specComputeY0`) instead of the source's truncating division; everything
else is identical, so a proof that the two agree on the reachable scan states
shows the computed `y0` always equals the spec's floor there. -/
def specCastLight (map : Point → Option Opacity) (origin : Point) (range : Int)
    (transform : Mat2) (ts : TileShape) :
    Nat → Int → Slope → Slope → List Point → List Point
  | 0, _, _, _, acc => acc
  | fuel + 1, x, slope_high, slope_low, acc =>
      if Slope.blt slope_high slope_low || decide (range < x) then acc
      else
        let y0 := specComputeY0 slope_low x
        castLoop map origin range transform x slope_low ts
          (fun sh sl a =>
            specCastLight map origin range transform ts fuel (x + 1) sh sl a)
          (x - y0 + 1).toNat x slope_high false acc

/-- The invariant holding of every `slope_low` the scanner is invoked with
from the entry points: either the `ZERO` sentinel (whose `run` is `0`), or a
slope with positive `run`, nonnegative `rise`, and a nonnegative `y0`
numerator `(2x-1)*rise - run` at the current distance `x`. -/
def GoodLow (x : Int) (sl : Slope) : Prop :=
  sl.run = 0 ∨ (0 < sl.run ∧ 0 ≤ sl.rise ∧ sl.run ≤ (2 * x - 1) * sl.rise)

instance (x : Int) (sl : Slope) : Decidable (GoodLow x sl) := by
  unfold GoodLow
  infer_instance

/-- The property of a tile shape that keeps `GoodLow` invariant: every
`tile_slope_high x y` it hands the scanner as the next row's `slope_low`
(for `x ≥ 1`, `y ≥ 0`) has positive `run`, nonnegative `rise`, and a
nonnegative numerator at distance `x + 1`. All three shipped shapes have it. -/
def GoodShape (ts : TileShape) : Prop :=
  ∀ x y : Int, 1 ≤ x → 0 ≤ y →
    0 < (ts.tile_slope_high x y).run ∧ 0 ≤ (ts.tile_slope_high x y).rise ∧
      (ts.tile_slope_high x y).run ≤
        (2 * (x + 1) - 1) * (ts.tile_slope_high x y).rise

section ScanLemmas

variable (map : Point → Option Opacity) (origin : Point) (range : Int)
    (transform : Mat2) (ts : TileShape)

lemma sqDist_add (p v : Point) : sqDist (p.add v) p = sqNorm v := by
  simp only [sqDist, sqNorm, Point.add]
  ring

lemma sqDist_self (p : Point) : sqDist p p = 0 := by
  simp [sqDist]

lemma octant_norm (i : Nat) (T : Mat2) (h : octant_transform i = some T)
    (v : Point) : sqNorm (T.mulVec v) = sqNorm v := by
  rcases i with _ | _ | _ | _ | _ | _ | _ | _ | i <;>
    first
      | exact Option.noConfusion h
      | · injection h with h
          subst h
          simp only [Mat2.mulVec, Mat2.ident, Mat2.row_major, sqNorm]
          ring

lemma emitted_ok (x y : Int) (hx : 1 ≤ x)
    (hT : ∀ v, sqNorm (transform.mulVec v) = sqNorm v)
    (hin : x * x + y * y ≤ range * range) :
    sqDist (origin.add (transform.mulVec ⟨y, x⟩)) origin ≤ range * range ∧
      origin.add (transform.mulVec ⟨y, x⟩) ≠ origin := by
  have h1 : sqDist (origin.add (transform.mulVec ⟨y, x⟩)) origin = x * x + y * y := by
    rw [sqDist_add, hT]
    simp only [sqNorm]
    ring
  refine ⟨by rw [h1]; exact hin, fun he => ?_⟩
  have h2 : sqDist (origin.add (transform.mulVec ⟨y, x⟩)) origin = 0 := by
    rw [he, sqDist_self]
  rw [h1] at h2
  nlinarith [mul_self_nonneg y, h2, hx]

lemma castLoop_append (x : Int) (slope_low : Slope)
    (rec : Slope → Slope → List Point → List Point)
    (hrec : ∀ sh sl a b, rec sh sl (a ++ b) = a ++ rec sh sl b) :
    ∀ (n : Nat) (y : Int) (sh : Slope) (po : Bool) (a b : List Point),
      castLoop map origin range transform x slope_low ts rec n y sh po (a ++ b) =
        a ++ castLoop map origin range transform x slope_low ts rec n y sh po b := by
  intro n
  induction n with
  | zero =>
    intro y sh po a b
    cases po <;> simp [castLoop, hrec]
  | succ n ih =>
    intro y sh po a b
    simp only [castLoop]
    split
    · exact ih (y - 1) sh po a b
    · split
      · cases po <;> simp [hrec]
      · cases po <;>
          by_cases hop : scanOpacity map (origin.add (transform.mulVec ⟨y, x⟩)) = true <;>
          by_cases hir : x * x + y * y ≤ range * range <;>
          simp [hop, hir, hrec, List.append_assoc, ih]

lemma castLight_append :
    ∀ (fuel : Nat) (x : Int) (sh sl : Slope) (a b : List Point),
      castLight map origin range transform ts fuel x sh sl (a ++ b) =
        a ++ castLight map origin range transform ts fuel x sh sl b := by
  intro fuel
  induction fuel with
  | zero =>
    intro x sh sl a b
    simp [castLight]
  | succ fuel ih =>
    intro x sh sl a b
    simp only [castLight]
    split
    · rfl
    · exact castLoop_append map origin range transform ts x sl _
        (fun sh2 sl2 a2 b2 => ih (x + 1) sh2 sl2 a2 b2) _ _ _ _ a b

lemma castLight_eq_append (fuel : Nat) (x : Int) (sh sl : Slope)
    (acc : List Point) :
    castLight map origin range transform ts fuel x sh sl acc =
      acc ++ castLight map origin range transform ts fuel x sh sl [] := by
  conv_lhs => rw [← List.append_nil acc]
  rw [castLight_append]

lemma castLoop_mem (x : Int) (slope_low : Slope)
    (rec : Slope → Slope → List Point → List Point) (hx : 1 ≤ x)
    (hT : ∀ v, sqNorm (transform.mulVec v) = sqNorm v)
    (hrec : ∀ sh sl a p, p ∈ rec sh sl a →
      p ∈ a ∨ (sqDist p origin ≤ range * range ∧ p ≠ origin)) :
    ∀ (n : Nat) (y : Int) (sh : Slope) (po : Bool) (acc : List Point)
      (p : Point),
      p ∈ castLoop map origin range transform x slope_low ts rec n y sh po acc →
      p ∈ acc ∨ (sqDist p origin ≤ range * range ∧ p ≠ origin) := by
  intro n
  induction n with
  | zero =>
    intro y sh po acc p hp
    cases po <;> simp only [castLoop, Bool.not_false, Bool.not_true] at hp
    · exact hrec _ _ _ _ (by simpa using hp)
    · exact Or.inl (by simpa using hp)
  | succ n ih =>
    intro y sh po acc p hp
    simp only [castLoop] at hp
    split at hp
    · exact ih (y - 1) sh po acc p hp
    · split at hp
      · cases po <;> simp only [Bool.not_false, Bool.not_true] at hp
        · exact hrec _ _ _ _ (by simpa using hp)
        · exact Or.inl (by simpa using hp)
      · by_cases hir : x * x + y * y ≤ range * range <;>
          by_cases hop : scanOpacity map (origin.add (transform.mulVec ⟨y, x⟩)) = true <;>
          cases po <;>
          simp only [hir, hop] at hp <;>
          simp at hp <;>
          first
            | { rcases ih _ _ _ _ _ hp with h | h
                · rcases hrec _ _ _ _ h with h2 | h2
                  · rcases List.mem_append.mp h2 with h3 | h3
                    · exact Or.inl h3
                    · obtain rfl := List.mem_singleton.mp h3
                      exact Or.inr (emitted_ok origin range transform x y hx hT hir)
                  · exact Or.inr h2
                · exact Or.inr h }
            | { rcases ih _ _ _ _ _ hp with h | h
                · rcases List.mem_append.mp h with h3 | h3
                  · exact Or.inl h3
                  · obtain rfl := List.mem_singleton.mp h3
                    exact Or.inr (emitted_ok origin range transform x y hx hT hir)
                · exact Or.inr h }
            | { rcases ih _ _ _ _ _ hp with h | h
                · rcases hrec _ _ _ _ h with h2 | h2
                  · exact Or.inl h2
                  · exact Or.inr h2
                · exact Or.inr h }
            | { rcases ih _ _ _ _ _ hp with h | h
                · exact Or.inl h
                · exact Or.inr h }

lemma castLight_mem
    (hT : ∀ v, sqNorm (transform.mulVec v) = sqNorm v) :
    ∀ (fuel : Nat) (x : Int) (sh sl : Slope) (acc : List Point) (p : Point),
      1 ≤ x →
      p ∈ castLight map origin range transform ts fuel x sh sl acc →
      p ∈ acc ∨ (sqDist p origin ≤ range * range ∧ p ≠ origin) := by
  intro fuel
  induction fuel with
  | zero =>
    intro x sh sl acc p _ hp
    simp only [castLight] at hp
    exact Or.inl hp
  | succ fuel ih =>
    intro x sh sl acc p hx hp
    simp only [castLight] at hp
    split at hp
    · exact Or.inl hp
    · exact castLoop_mem map origin range transform ts x sl _ hx hT
        (fun sh2 sl2 a2 p2 hp2 => ih (x + 1) sh2 sl2 a2 p2 (by omega) hp2)
        _ _ _ _ _ p hp

lemma castLight_count
    (hT : ∀ v, sqNorm (transform.mulVec v) = sqNorm v)
    (fuel : Nat) (x : Int) (sh sl : Slope) (acc : List Point) (hx : 1 ≤ x) :
    (castLight map origin range transform ts fuel x sh sl acc).count origin =
      acc.count origin := by
  rw [castLight_eq_append, List.count_append]
  have h0 : (castLight map origin range transform ts fuel x sh sl []).count origin = 0 := by
    rw [List.count_eq_zero]
    intro hmem
    rcases castLight_mem map origin range transform ts hT fuel x sh sl [] origin hx hmem with
      h | ⟨_, hne⟩
    · simp at h
    · exact hne rfl
  rw [h0]
  omega

lemma foldOctants_mem (mkShape : Mat2 → TileShape) :
    ∀ (l : List Nat) (acc out : List Point),
      List.foldlM (fun acc octant =>
        (octant_transform octant).map fun transform =>
          castLight map origin range transform (mkShape transform) range.toNat 1
            Slope.ONE Slope.ZERO acc) acc l = some out →
      ∀ p ∈ out, p ∈ acc ∨ (sqDist p origin ≤ range * range ∧ p ≠ origin) := by
  intro l
  induction l with
  | nil =>
    intro acc out h p hp
    simp only [List.foldlM_nil] at h
    obtain rfl := Option.some.inj h
    exact Or.inl hp
  | cons i rest ih =>
    intro acc out h p hp
    rw [List.foldlM_cons] at h
    cases hoct : octant_transform i with
    | none =>
      rw [hoct] at h
      simp at h
    | some T =>
      rw [hoct] at h
      simp only [Option.map_some', Option.some_bind] at h
      rcases ih _ _ h p hp with hmem | hq
      · exact castLight_mem map origin range T (mkShape T)
          (octant_norm i T hoct) range.toNat 1 Slope.ONE Slope.ZERO acc p
          (by omega) hmem
      · exact Or.inr hq

lemma foldOctants_prefix (mkShape : Mat2 → TileShape) :
    ∀ (l : List Nat) (acc out : List Point),
      List.foldlM (fun acc octant =>
        (octant_transform octant).map fun transform =>
          castLight map origin range transform (mkShape transform) range.toNat 1
            Slope.ONE Slope.ZERO acc) acc l = some out →
      ∃ tail, out = acc ++ tail := by
  intro l
  induction l with
  | nil =>
    intro acc out h
    simp only [List.foldlM_nil] at h
    obtain rfl := Option.some.inj h
    exact ⟨[], by simp⟩
  | cons i rest ih =>
    intro acc out h
    rw [List.foldlM_cons] at h
    cases hoct : octant_transform i with
    | none =>
      rw [hoct] at h
      simp at h
    | some T =>
      rw [hoct] at h
      simp only [Option.map_some', Option.some_bind] at h
      obtain ⟨t2, ht2⟩ := ih _ _ h
      refine ⟨castLight map origin range T (mkShape T) range.toNat 1
        Slope.ONE Slope.ZERO [] ++ t2, ?_⟩
      rw [ht2, castLight_eq_append, List.append_assoc]

lemma foldOctants_count (mkShape : Mat2 → TileShape) :
    ∀ (l : List Nat) (acc out : List Point),
      List.foldlM (fun acc octant =>
        (octant_transform octant).map fun transform =>
          castLight map origin range transform (mkShape transform) range.toNat 1
            Slope.ONE Slope.ZERO acc) acc l = some out →
      out.count origin = acc.count origin := by
  intro l
  induction l with
  | nil =>
    intro acc out h
    simp only [List.foldlM_nil] at h
    obtain rfl := Option.some.inj h
    rfl
  | cons i rest ih =>
    intro acc out h
    rw [List.foldlM_cons] at h
    cases hoct : octant_transform i with
    | none =>
      rw [hoct] at h
      simp at h
    | some T =>
      rw [hoct] at h
      simp only [Option.map_some', Option.some_bind] at h
      rw [ih _ _ h]
      exact castLight_count map origin range T (mkShape T)
        (octant_norm i T hoct) range.toNat 1 Slope.ONE Slope.ZERO acc (by omega)

lemma castOctants_isSome (mkShape : Mat2 → TileShape) :
    ∃ out, castOctants map origin range mkShape = some out :=
  ⟨_, rfl⟩

end ScanLemmas

section CongrLemmas

lemma castLoop_congr (m1 m2 : Point → Option Opacity) (origin : Point)
    (range : Int) (transform : Mat2) (ts : TileShape) (x : Int)
    (slope_low : Slope) (rec1 rec2 : Slope → Slope → List Point → List Point)
    (hmap : ∀ pt, scanOpacity m1 pt = scanOpacity m2 pt) :
    ∀ (n : Nat) (y : Int) (sh : Slope) (po : Bool) (acc : List Point),
      (∀ sh2 a, rec1 sh2 slope_low a = rec2 sh2 slope_low a) →
      (∀ i : Nat, i < n → ∀ sh2 a,
        rec1 sh2 (ts.tile_slope_high x (y - (i : Int))) a =
          rec2 sh2 (ts.tile_slope_high x (y - (i : Int))) a) →
      castLoop m1 origin range transform x slope_low ts rec1 n y sh po acc =
        castLoop m2 origin range transform x slope_low ts rec2 n y sh po acc := by
  intro n
  induction n with
  | zero =>
    intro y sh po acc hlo _
    cases po <;> simp [castLoop, hlo]
  | succ n ih =>
    intro y sh po acc hlo ht
    have hshift : ∀ i : Nat, i < n → ∀ sh2 a,
        rec1 sh2 (ts.tile_slope_high x (y - 1 - (i : Int))) a =
          rec2 sh2 (ts.tile_slope_high x (y - 1 - (i : Int))) a := by
      intro i hi sh2 a
      have h := ht (i + 1) (by omega) sh2 a
      have harg : y - ((i + 1 : Nat) : Int) = y - 1 - (i : Int) := by
        push_cast
        ring
      rw [harg] at h
      exact h
    have h0 : ∀ sh2 a,
        rec1 sh2 (ts.tile_slope_high x y) a = rec2 sh2 (ts.tile_slope_high x y) a := by
      intro sh2 a
      have h := ht 0 (by omega) sh2 a
      simpa using h
    simp only [castLoop]
    split
    · exact ih (y - 1) sh po acc hlo hshift
    · split
      · cases po <;> simp [hlo]
      · rw [hmap (origin.add (transform.mulVec ⟨y, x⟩))]
        simp only [h0]
        exact ih (y - 1) _ _ _ hlo hshift

lemma castLight_congr_map (m1 m2 : Point → Option Opacity) (origin : Point)
    (range : Int) (transform : Mat2) (ts : TileShape)
    (hmap : ∀ pt, scanOpacity m1 pt = scanOpacity m2 pt) :
    ∀ (fuel : Nat) (x : Int) (sh sl : Slope) (acc : List Point),
      castLight m1 origin range transform ts fuel x sh sl acc =
        castLight m2 origin range transform ts fuel x sh sl acc := by
  intro fuel
  induction fuel with
  | zero => intro x sh sl acc; rfl
  | succ fuel ih =>
    intro x sh sl acc
    simp only [castLight]
    split
    · rfl
    · exact castLoop_congr m1 m2 origin range transform ts x sl _ _ hmap _ _ _ _ _
        (fun sh2 a => ih (x + 1) sh2 sl a)
        (fun i _ sh2 a => ih (x + 1) sh2 _ a)

lemma castLight_fuel_canonical (map : Point → Option Opacity) (origin : Point)
    (range : Int) (transform : Mat2) (ts : TileShape) :
    ∀ (fuel : Nat) (x : Int) (sh sl : Slope) (acc : List Point),
      (range + 1 - x).toNat ≤ fuel →
      castLight map origin range transform ts fuel x sh sl acc =
        castLight map origin range transform ts (range + 1 - x).toNat x sh sl acc := by
  intro fuel
  induction fuel using Nat.strong_induction_on with
  | _ fuel ih =>
    intro x sh sl acc hf
    cases fuel with
    | zero =>
      have h0 : (range + 1 - x).toNat = 0 := Nat.le_zero.mp hf
      rw [h0]
    | succ f =>
      rcases hk : (range + 1 - x).toNat with _ | m
      · have hRx : range < x := by omega
        simp [castLight, hRx]
      · simp only [castLight]
        split
        · rfl
        · have e1 : (range + 1 - (x + 1)).toNat = m := by omega
          have hrec : ∀ sh2 sl2 a,
              castLight map origin range transform ts f (x + 1) sh2 sl2 a =
                castLight map origin range transform ts m (x + 1) sh2 sl2 a := by
            intro sh2 sl2 a
            have h1 := ih f (Nat.lt_succ_self f) (x + 1) sh2 sl2 a (by omega)
            have h2 := ih m (by omega) (x + 1) sh2 sl2 a (by omega)
            rw [h1, h2]
          exact castLoop_congr map map origin range transform ts x sl _ _
            (fun _ => rfl) _ _ _ _ _
            (fun sh2 a => hrec sh2 sl a)
            (fun i _ sh2 a => hrec sh2 _ a)

end CongrLemmas

section Y0Lemmas

lemma slope_new_nonneg (a b : Int) (h : 0 ≤ b) : Slope.new a b = ⟨a, b⟩ := by
  rw [Slope.new, if_neg (by omega)]

lemma goodLow_y0 (x : Int) (sl : Slope) (h : GoodLow x sl) :
    computeY0 sl x = specComputeY0 sl x ∧ 0 ≤ computeY0 sl x := by
  rcases h with h0 | ⟨hpos, _, hnum⟩
  · simp [computeY0, specComputeY0, h0]
  · have hnum2 : 0 ≤ (2 * x - 1) * sl.rise - sl.run := by linarith
    have hden : (0 : Int) ≤ 2 * sl.run := by linarith
    constructor
    · simp only [computeY0, specComputeY0, hpos, if_true]
      rw [Int.tdiv_eq_ediv hnum2 hden, Int.fdiv_eq_ediv _ hden]
    · simp only [computeY0, hpos, if_true]
      exact Int.tdiv_nonneg hnum2 hden

lemma goodLow_succ (x : Int) (sl : Slope) (h : GoodLow x sl) :
    GoodLow (x + 1) sl := by
  rcases h with h0 | ⟨hpos, hrise, hnum⟩
  · exact Or.inl h0
  · exact Or.inr ⟨hpos, hrise, by nlinarith⟩

lemma goodLow_of_shape (ts : TileShape) (hts : GoodShape ts) (x y : Int)
    (hx : 1 ≤ x) (hy : 0 ≤ y) : GoodLow (x + 1) (ts.tile_slope_high x y) :=
  Or.inr ⟨(hts x y hx hy).1, (hts x y hx hy).2.1, (hts x y hx hy).2.2⟩

lemma goodLow_entry : GoodLow 1 Slope.ZERO :=
  Or.inl rfl

lemma goodShape_square : GoodShape SquareTileShape := by
  intro x y hx hy
  simp only [SquareTileShape, slope_new_nonneg (2 * y + 1) (2 * x - 1) (by omega)]
  refine ⟨by omega, by omega, by nlinarith⟩

lemma goodShape_diamond : GoodShape DiamondTileShape := by
  intro x y hx hy
  simp only [DiamondTileShape, slope_new_nonneg (y * 2 + 1) (x * 2) (by omega)]
  refine ⟨by omega, by omega, by nlinarith⟩

lemma goodShape_beveled (map : Point → Option Opacity) (origin : Point)
    (transform : Mat2) : GoodShape (AdamMilazzoTileShape map origin transform) := by
  intro x y hx hy
  simp only [AdamMilazzoTileShape]
  split
  · split
    · simp only [slope_new_nonneg (2 * y + 1) (2 * x) (by omega)]
      exact ⟨by omega, by omega, by nlinarith⟩
    · simp only [slope_new_nonneg (2 * y + 1) (2 * x - 1) (by omega)]
      exact ⟨by omega, by omega, by nlinarith⟩
  · simp only [slope_new_nonneg (2 * y + 1) (2 * x - 1) (by omega)]
    exact ⟨by omega, by omega, by nlinarith⟩

lemma specCastLight_eq (map : Point → Option Opacity) (origin : Point)
    (range : Int) (transform : Mat2) (ts : TileShape) (hts : GoodShape ts) :
    ∀ (fuel : Nat) (x : Int) (sh sl : Slope) (acc : List Point),
      1 ≤ x → GoodLow x sl →
      specCastLight map origin range transform ts fuel x sh sl acc =
        castLight map origin range transform ts fuel x sh sl acc := by
  intro fuel
  induction fuel with
  | zero => intro x sh sl acc _ _; rfl
  | succ fuel ih =>
    intro x sh sl acc hx hsl
    obtain ⟨hy0eq, hy0pos⟩ := goodLow_y0 x sl hsl
    simp only [specCastLight, castLight]
    rw [← hy0eq]
    split
    · rfl
    · exact castLoop_congr map map origin range transform ts x sl _ _
        (fun _ => rfl) _ _ _ _ _
        (fun sh2 a => ih (x + 1) sh2 sl a (by omega) (goodLow_succ x sl hsl))
        (fun i hi sh2 a => ih (x + 1) sh2 _ a (by omega)
          (goodLow_of_shape ts hts x (x - (i : Int)) hx (by omega)))

end Y0Lemmas

/-- C4, counterexample: the claim says `Slope::ZERO` is the rational `0/1`
with `run = 1 > 0`; in the source `Slope::ZERO = Slope::new(0, 0)`, whose
`run` is `0`, not `1`, and not strictly positive. -/
theorem slope_zero_run_is_zero_counterexample :
    Slope.ZERO.run = 0 ∧ Slope.ZERO.run ≠ 1 ∧ ¬ 0 < Slope.ZERO.run := by
  decide

/-- C4, amended: the constant `Slope::ZERO` has rise `0` and run `0`
(`Slope::new(0, 0)` leaves both components unchanged), so its run is not
strictly positive and it acts as a degenerate sentinel in comparisons. -/
theorem slope_zero_value :
    Slope.ZERO = ⟨0, 0⟩ ∧ Slope.ZERO.rise = 0 ∧ Slope.ZERO.run = 0 := by
  decide

/-- C5, counterexample: `ONE` and `ZERO` both arise in the algorithm (they
are the initial bounds of every octant scan and are compared by the
`slope_high < slope_low` guard), yet cross-multiplication makes them compare
`Equal` while they are structurally distinct, so `cmp a b = Equal → a = b`
fails on slopes arising in the algorithm. -/
theorem slope_cmp_one_zero_counterexample :
    Slope.cmp Slope.ONE Slope.ZERO = Ordering.eq ∧ Slope.ONE ≠ Slope.ZERO := by
  decide

/-- C5, amended: restricted to slopes with strictly positive `run`, the
cross-multiplication comparison is transitive (in its `≤`, i.e. `≠ gt`,
form) and `cmp a b = Equal` holds exactly when the cross products agree
(equality of the represented rationals, which is weaker than structural
equality); the `ZERO` sentinel, whose `run` is `0`, compares `Equal`
against every slope from both sides. -/
theorem slope_cmp_order_on_positive_runs :
    ∀ a b c : Slope, 0 < a.run → 0 < b.run → 0 < c.run →
      (Slope.cmp a b = Ordering.eq ↔ a.rise * b.run = b.rise * a.run)
      ∧ (Slope.cmp a b ≠ Ordering.gt → Slope.cmp b c ≠ Ordering.gt →
          Slope.cmp a c ≠ Ordering.gt)
      ∧ Slope.cmp a Slope.ZERO = Ordering.eq
      ∧ Slope.cmp Slope.ZERO a = Ordering.eq := by
  intro a b c ha hb hc
  refine ⟨?_, ?_, ?_, ?_⟩
  · rw [Slope.cmp, compare_eq_iff_eq]
  · intro h1 h2
    rw [Slope.cmp, compare_le_iff_le] at h1 h2 ⊢
    have k1 := mul_le_mul_of_nonneg_right h1 hc.le
    have k2 := mul_le_mul_of_nonneg_right h2 ha.le
    have key : a.rise * c.run * b.run ≤ c.rise * a.run * b.run := by nlinarith
    exact le_of_mul_le_mul_right key hb
  · rw [Slope.cmp]
    simp [Slope.ZERO, Slope.new, compare_eq_iff_eq]
  · rw [Slope.cmp]
    simp [Slope.ZERO, Slope.new, compare_eq_iff_eq]

/-- C5, witness at concrete slopes 1/2, 1/1, 2/1. -/
theorem slope_cmp_order_witness :
    (Slope.cmp ⟨1, 2⟩ ⟨1, 1⟩ = Ordering.eq ↔
      (⟨1, 2⟩ : Slope).rise * (⟨1, 1⟩ : Slope).run =
        (⟨1, 1⟩ : Slope).rise * (⟨1, 2⟩ : Slope).run)
    ∧ (Slope.cmp ⟨1, 2⟩ ⟨1, 1⟩ ≠ Ordering.gt → Slope.cmp ⟨1, 1⟩ ⟨2, 1⟩ ≠ Ordering.gt →
        Slope.cmp ⟨1, 2⟩ ⟨2, 1⟩ ≠ Ordering.gt)
    ∧ Slope.cmp ⟨1, 2⟩ Slope.ZERO = Ordering.eq
    ∧ Slope.cmp Slope.ZERO ⟨1, 2⟩ = Ordering.eq :=
  slope_cmp_order_on_positive_runs ⟨1, 2⟩ ⟨1, 1⟩ ⟨2, 1⟩ (by decide) (by decide) (by decide)

/-- C10, counterexample: at `run = -2^31` the negation in `Slope::new`
wraps to `-2^31` itself, so the returned slope violates `run ≥ 0`. -/
theorem slope_new32_min_run_counterexample :
    (Slope.new32 0 (-(2 ^ 31))).run = -(2 ^ 31)
    ∧ ¬ 0 ≤ (Slope.new32 0 (-(2 ^ 31))).run := by
  decide

/-- C10, amended: for 32-bit inputs whose negation does not overflow
(both components strictly greater than `-2^31`), `Slope::new` returns a
slope with `run ≥ 0` denoting the same rational (cross-multiplication
equality), and agrees with the idealized integer `Slope.new`; the lone
failure is the wrap at `-2^31`. -/
theorem slope_new32_normalizes :
    ∀ rise run : Int, -(2 ^ 31) < rise → rise < 2 ^ 31 → -(2 ^ 31) < run →
      run < 2 ^ 31 →
      0 ≤ (Slope.new32 rise run).run
      ∧ (Slope.new32 rise run).rise * run = rise * (Slope.new32 rise run).run
      ∧ Slope.new32 rise run = Slope.new rise run := by
  intro rise run h1 h2 h3 h4
  have e1 : ((2 : Int) ^ 32) = 4294967296 := by norm_num
  have e2 : ((2 : Int) ^ 31) = 2147483648 := by norm_num
  have hw : ∀ z : Int, -(2 ^ 31) ≤ z → z < 2 ^ 31 → wrap32 z = z := by
    intro z hz1 hz2
    unfold wrap32
    rw [e2] at hz1 hz2
    rw [e1, e2]
    omega
  by_cases hrun : run < 0
  · have hx : Slope.new32 rise run = ⟨-rise, -run⟩ := by
      rw [Slope.new32, if_pos hrun, hw (-rise) (by omega) (by omega),
        hw (-run) (by omega) (by omega)]
    have hn : Slope.new rise run = ⟨-rise, -run⟩ := by
      rw [Slope.new, if_pos hrun]
    rw [hx, hn]
    refine ⟨?_, ?_, rfl⟩
    · show (0 : Int) ≤ -run
      omega
    · show -rise * run = rise * -run
      ring
  · have hx : Slope.new32 rise run = ⟨rise, run⟩ := by
      rw [Slope.new32, if_neg hrun]
    have hn : Slope.new rise run = ⟨rise, run⟩ := by
      rw [Slope.new, if_neg hrun]
    rw [hx, hn]
    refine ⟨?_, ?_, rfl⟩
    · show (0 : Int) ≤ run
      omega
    · show rise * run = rise * run
      ring

/-- C10, witness at `rise = 1, run = -2`. -/
theorem slope_new32_normalizes_witness :
    0 ≤ (Slope.new32 1 (-2)).run
    ∧ (Slope.new32 1 (-2)).rise * (-2) = 1 * (Slope.new32 1 (-2)).run
    ∧ Slope.new32 1 (-2) = Slope.new 1 (-2) :=
  slope_new32_normalizes 1 (-2) (by decide) (by decide) (by decide) (by decide)

/-- C8: the beveled tile shape's opacity queries (`blocks_light`, used by
`tile_slope_high`, `tile_slope_low` and `prev_tile_slope_low`) block only on
an exact `Some(Opaque)` lookup, so a `None` (out-of-domain) lookup counts as
clear there; the scanner's own test (`scanOpacity`) instead treats the same
`None` lookup as opaque — the opposite convention.  On the everywhere-`None`
map all three queries take their floor/clear branches. -/
theorem beveled_blocks_only_opaque :
    (∀ (map : Point → Option Opacity) (origin : Point) (transform : Mat2)
        (x y : Int),
      amBlocksLight map origin transform x y = true ↔
        map (origin.add (transform.mulVec ⟨y, x⟩)) = some Opacity.Opaque)
    ∧ (∀ (map : Point → Option Opacity) (origin : Point) (transform : Mat2)
        (x y : Int),
        map (origin.add (transform.mulVec ⟨y, x⟩)) = none →
        amBlocksLight map origin transform x y = false ∧
          scanOpacity map (origin.add (transform.mulVec ⟨y, x⟩)) = true)
    ∧ (∀ (origin : Point) (transform : Mat2) (x y : Int),
        (AdamMilazzoTileShape (fun _ => none) origin transform).tile_slope_high x y =
          Slope.new (2 * y + 1) (2 * x - 1)
        ∧ (AdamMilazzoTileShape (fun _ => none) origin transform).tile_slope_low x y =
            Slope.new (2 * y - 1) (2 * x + 1)
        ∧ (AdamMilazzoTileShape (fun _ => none) origin transform).prev_tile_slope_low x y =
            Slope.new (2 * y) (2 * x)) := by
  refine ⟨?_, ?_, ?_⟩
  · intro map origin transform x y
    simp [amBlocksLight]
  · intro map origin transform x y h
    exact ⟨by simp [amBlocksLight, h], by simp [scanOpacity, h]⟩
  · intro origin transform x y
    refine ⟨?_, ?_, ?_⟩ <;> simp [AdamMilazzoTileShape, amBlocksLight]

/-- C8, witness: a `None` lookup at a concrete query point. -/
theorem beveled_blocks_only_opaque_witness :
    amBlocksLight (fun _ => none) ⟨0, 0⟩ Mat2.ident 1 0 = false
    ∧ scanOpacity (fun _ => none)
        (Point.add ⟨0, 0⟩ (Mat2.ident.mulVec ⟨0, 1⟩)) = true :=
  beveled_blocks_only_opaque.2.1 (fun _ => none) ⟨0, 0⟩ Mat2.ident 1 0 rfl

/-- C9: `octant_transform` returns a fixed matrix for each index `0..=7`
(the identity at `0`), panics (`none`) for every index `≥ 8`, and the panic
is unreachable from the three public entry points, which always produce a
`some` result. -/
theorem octant_transform_partiality :
    octant_transform 0 = some Mat2.ident
    ∧ (∀ i : Nat, i ≤ 7 → (octant_transform i).isSome = true)
    ∧ (∀ i : Nat, 8 ≤ i → octant_transform i = none)
    ∧ (∀ (map : Point → Option Opacity) (origin : Point) (range : Int),
        (cast_light_2d map origin range).isSome = true
        ∧ (cast_light_2d_diamond map origin range).isSome = true
        ∧ (cast_light_2d_beveled map origin range).isSome = true) := by
  refine ⟨rfl, ?_, ?_, ?_⟩
  · intro i hi
    interval_cases i <;> rfl
  · intro i hi
    obtain ⟨k, rfl⟩ := Nat.exists_eq_add_of_le hi
    rw [Nat.add_comm]
    rfl
  · intro map origin range
    refine ⟨?_, ?_, ?_⟩
    · obtain ⟨out, h⟩ := castOctants_isSome map origin range fun _ => SquareTileShape
      simp [cast_light_2d, h]
    · obtain ⟨out, h⟩ := castOctants_isSome map origin range fun _ => DiamondTileShape
      simp [cast_light_2d_diamond, h]
    · obtain ⟨out, h⟩ := castOctants_isSome map origin range fun transform =>
        AdamMilazzoTileShape map origin transform
      simp [cast_light_2d_beveled, h]

/-- C9, witness: a valid index yields a matrix and an invalid one the panic
arm, and a concrete entry-point call avoids the panic. -/
theorem octant_transform_partiality_witness :
    (octant_transform 5).isSome = true
    ∧ octant_transform 12 = none
    ∧ (cast_light_2d (fun _ => some Opacity.Transparent) ⟨0, 0⟩ 1).isSome = true :=
  ⟨octant_transform_partiality.2.1 5 (by decide),
    octant_transform_partiality.2.2.1 12 (by decide),
    (octant_transform_partiality.2.2.2 (fun _ => some Opacity.Transparent) ⟨0, 0⟩ 1).1⟩

/-- C1: every point handed to the callback by any of the three entry points
lies within squared Euclidean distance `range²` of the origin, and each of
the 8 octant transform matrices preserves the squared norm. -/
theorem cast_light_within_range :
    (∀ (map : Point → Option Opacity) (origin : Point) (range : Int)
        (out : List Point) (p : Point),
      0 ≤ range →
      (cast_light_2d map origin range = some out ∨
        cast_light_2d_diamond map origin range = some out ∨
        cast_light_2d_beveled map origin range = some out) →
      p ∈ out → sqDist p origin ≤ range * range)
    ∧ (∀ (i : Nat) (T : Mat2), octant_transform i = some T →
        ∀ v : Point, sqNorm (T.mulVec v) = sqNorm v) := by
  constructor
  · intro map origin range out p _ hsome hp
    have handle : ∀ mkShape : Mat2 → TileShape,
        castOctants map origin range mkShape = some out →
        sqDist p origin ≤ range * range := by
      intro mk h
      simp only [castOctants] at h
      rcases foldOctants_mem map origin range mk (List.range 8) [origin] out h p hp with
        hmem | ⟨hq, _⟩
      · obtain rfl := List.mem_singleton.mp hmem
        rw [sqDist_self]
        exact mul_self_nonneg range
      · exact hq
    rcases hsome with h | h | h
    · exact handle _ h
    · exact handle _ h
    · exact handle _ h
  · exact octant_norm

/-- C1, witness: a fully transparent map at range 1, checked at the emitted
point `(0, 1)`, and norm preservation of the octant-1 matrix at `(2, 3)`. -/
theorem cast_light_within_range_witness :
    sqDist ⟨0, 1⟩ ⟨0, 0⟩ ≤ 1 * 1
    ∧ sqNorm ((Mat2.row_major 0 1 1 0).mulVec ⟨2, 3⟩) = sqNorm ⟨2, 3⟩ :=
  ⟨cast_light_within_range.1 (fun _ => some Opacity.Transparent) ⟨0, 0⟩ 1
      [⟨0, 0⟩, ⟨0, 1⟩, ⟨1, 0⟩, ⟨-1, 0⟩, ⟨0, 1⟩, ⟨0, -1⟩, ⟨-1, 0⟩, ⟨1, 0⟩, ⟨0, -1⟩]
      ⟨0, 1⟩ (by decide) (Or.inl (by decide)) (by decide),
    cast_light_within_range.2 1 (Mat2.row_major 0 1 1 0) rfl ⟨2, 3⟩⟩

/-- C2: each of the three entry points succeeds and invokes the callback
with the origin exactly once, as the very first invocation, for every map
(regardless of the origin tile's opacity), every origin and every range. -/
theorem origin_called_once_first :
    ∀ (map : Point → Option Opacity) (origin : Point) (range : Int),
      (∃ out, cast_light_2d map origin range = some out ∧
        out.head? = some origin ∧ out.count origin = 1)
      ∧ (∃ out, cast_light_2d_diamond map origin range = some out ∧
          out.head? = some origin ∧ out.count origin = 1)
      ∧ (∃ out, cast_light_2d_beveled map origin range = some out ∧
          out.head? = some origin ∧ out.count origin = 1) := by
  intro map origin range
  have handle : ∀ mkShape : Mat2 → TileShape,
      ∃ out, castOctants map origin range mkShape = some out ∧
        out.head? = some origin ∧ out.count origin = 1 := by
    intro mk
    obtain ⟨out, h⟩ := castOctants_isSome map origin range mk
    simp only [castOctants] at h
    refine ⟨out, h, ?_, ?_⟩
    · obtain ⟨tail, rfl⟩ :=
        foldOctants_prefix map origin range mk (List.range 8) [origin] out h
      simp
    · rw [foldOctants_count map origin range mk (List.range 8) [origin] out h]
      simp
  exact ⟨handle _, handle _, handle _⟩

/-- C3: the scanner returns immediately when the wedge has collapsed
(`slope_high < slope_low`) or the distance exceeds the range (`x > range`);
and since every recursive call steps the distance to `x + 1`, the recursion
depth from distance `x` is bounded by `range + 1 - x`: any two fuels at
least that bound produce identical behavior (so fuel `range` suffices from
the entry distance `x = 1`). -/
theorem scanner_return_and_depth_bound :
    (∀ (map : Point → Option Opacity) (origin : Point) (range : Int)
        (transform : Mat2) (ts : TileShape) (fuel : Nat) (x : Int)
        (sh sl : Slope) (acc : List Point),
      (Slope.blt sh sl = true ∨ range < x) →
      castLight map origin range transform ts (fuel + 1) x sh sl acc = acc)
    ∧ (∀ (map : Point → Option Opacity) (origin : Point) (range : Int)
        (transform : Mat2) (ts : TileShape) (fuel1 fuel2 : Nat) (x : Int)
        (sh sl : Slope) (acc : List Point),
        (range + 1 - x).toNat ≤ fuel1 → (range + 1 - x).toNat ≤ fuel2 →
        castLight map origin range transform ts fuel1 x sh sl acc =
          castLight map origin range transform ts fuel2 x sh sl acc) := by
  constructor
  · intro map origin range transform ts fuel x sh sl acc h
    rcases h with h | h
    · simp [castLight, h]
    · simp [castLight, h]
  · intro map origin range transform ts fuel1 fuel2 x sh sl acc h1 h2
    rw [castLight_fuel_canonical map origin range transform ts fuel1 x sh sl acc h1,
      castLight_fuel_canonical map origin range transform ts fuel2 x sh sl acc h2]

/-- C3, witness: immediate return past the range at `x = 7 > 5 = range`, and
fuel-independence between fuels 5 and 9 at the entry state of range 5. -/
theorem scanner_return_and_depth_bound_witness :
    castLight (fun _ => some Opacity.Transparent) ⟨0, 0⟩ 5 Mat2.ident
      SquareTileShape (3 + 1) 7 Slope.ONE Slope.ZERO [] = []
    ∧ castLight (fun _ => some Opacity.Transparent) ⟨0, 0⟩ 5 Mat2.ident
        SquareTileShape 5 1 Slope.ONE Slope.ZERO [] =
      castLight (fun _ => some Opacity.Transparent) ⟨0, 0⟩ 5 Mat2.ident
        SquareTileShape 9 1 Slope.ONE Slope.ZERO [] :=
  ⟨scanner_return_and_depth_bound.1 (fun _ => some Opacity.Transparent) ⟨0, 0⟩ 5
      Mat2.ident SquareTileShape 3 7 Slope.ONE Slope.ZERO [] (Or.inr (by decide)),
    scanner_return_and_depth_bound.2 (fun _ => some Opacity.Transparent) ⟨0, 0⟩ 5
      Mat2.ident SquareTileShape 5 9 1 Slope.ONE Slope.ZERO [] (by decide) (by decide)⟩

/-- C7: the scanner's opacity decision for a visited tile is exactly
"`map.get(world_point)` is not `Some(Transparent)`", and consequently a map
whose `None` lookups are all replaced by `Some(Opaque)` drives the scanner
to identical behavior — out-of-domain tiles block light. -/
theorem scanner_opacity_decision :
    (∀ (map : Point → Option Opacity) (pt : Point),
      scanOpacity map pt = true ↔ map pt ≠ some Opacity.Transparent)
    ∧ (∀ (map : Point → Option Opacity) (origin : Point) (range : Int)
        (transform : Mat2) (ts : TileShape) (fuel : Nat) (x : Int)
        (sh sl : Slope) (acc : List Point),
        castLight (maskOpaque map) origin range transform ts fuel x sh sl acc =
          castLight map origin range transform ts fuel x sh sl acc) := by
  have hmap : ∀ (map : Point → Option Opacity) (pt : Point),
      scanOpacity (maskOpaque map) pt = scanOpacity map pt := by
    intro map pt
    cases h : map pt with
    | none => simp [scanOpacity, maskOpaque, h]
    | some o => simp [scanOpacity, maskOpaque, h]
  constructor
  · intro map pt
    simp [scanOpacity]
  · intro map origin range transform ts fuel x sh sl acc
    exact castLight_congr_map (maskOpaque map) map origin range transform ts
      (hmap map) fuel x sh sl acc

/-- C6: the starting offset is `0` whenever `slope_low.run ≤ 0`; when
`slope_low.run > 0` and the numerator `(2x-1)*rise - run` is nonnegative —
which holds in every scanner invocation reachable from the entry points,
because the entry `slope_low` is the `ZERO` sentinel and every recursive
call passes a `tile_slope_high` of one of the three shipped tile shapes
(`GoodShape`), preserving `GoodLow` — the truncating division agrees with
the spec's mathematical floor, so the scanner is extensionally equal to the
variant computing `y0` by the floor formula. -/
theorem computed_y0_is_floor_on_reachable_states :
    (∀ (sl : Slope) (x : Int), sl.run ≤ 0 → computeY0 sl x = 0)
    ∧ (∀ (sl : Slope) (x : Int), 0 < sl.run → 0 ≤ (2 * x - 1) * sl.rise - sl.run →
        computeY0 sl x =
          Int.fdiv ((2 * x - 1) * sl.rise - sl.run) (2 * sl.run))
    ∧ GoodLow 1 Slope.ZERO
    ∧ GoodShape SquareTileShape
    ∧ GoodShape DiamondTileShape
    ∧ (∀ (map : Point → Option Opacity) (origin : Point) (transform : Mat2),
        GoodShape (AdamMilazzoTileShape map origin transform))
    ∧ (∀ (map : Point → Option Opacity) (origin : Point) (range : Int)
        (transform : Mat2) (ts : TileShape) (fuel : Nat) (x : Int)
        (sh sl : Slope) (acc : List Point),
        GoodShape ts → 1 ≤ x → GoodLow x sl →
        specCastLight map origin range transform ts fuel x sh sl acc =
          castLight map origin range transform ts fuel x sh sl acc) := by
  refine ⟨?_, ?_, goodLow_entry, goodShape_square, goodShape_diamond,
    goodShape_beveled, ?_⟩
  · intro sl x h
    rw [computeY0, if_neg (by omega)]
  · intro sl x h1 h2
    rw [computeY0, if_pos h1, Int.tdiv_eq_ediv h2 (by omega),
      Int.fdiv_eq_ediv _ (by omega)]
  · intro map origin range transform ts fuel x sh sl acc hts hx hsl
    exact specCastLight_eq map origin range transform ts hts fuel x sh sl acc hx hsl

/-- C6, witness: the sentinel gives `y0 = 0`; a reachable positive-run
slope matches the floor; and the floor-based scanner agrees with the
source's scanner on a concrete entry-state run. -/
theorem computed_y0_is_floor_witness :
    computeY0 ⟨0, 0⟩ 3 = 0
    ∧ computeY0 ⟨1, 1⟩ 2 =
        Int.fdiv ((2 * 2 - 1) * (⟨1, 1⟩ : Slope).rise - (⟨1, 1⟩ : Slope).run)
          (2 * (⟨1, 1⟩ : Slope).run)
    ∧ specCastLight (fun _ => some Opacity.Transparent) ⟨0, 0⟩ 2 Mat2.ident
        SquareTileShape 2 1 Slope.ONE Slope.ZERO [] =
      castLight (fun _ => some Opacity.Transparent) ⟨0, 0⟩ 2 Mat2.ident
        SquareTileShape 2 1 Slope.ONE Slope.ZERO [] :=
  ⟨computed_y0_is_floor_on_reachable_states.1 ⟨0, 0⟩ 3 (by decide),
    computed_y0_is_floor_on_reachable_states.2.1 ⟨1, 1⟩ 2 (by decide) (by decide),
    computed_y0_is_floor_on_reachable_states.2.2.2.2.2.2
      (fun _ => some Opacity.Transparent) ⟨0, 0⟩ 2 Mat2.ident SquareTileShape
      2 1 Slope.ONE Slope.ZERO []
      computed_y0_is_floor_on_reachable_states.2.2.2.1 (by decide)
      computed_y0_is_floor_on_reachable_states.2.2.1⟩

end Scoundrel

